import Mathlib

/-!
Verification of the RGA offline-analysis engine
(`offline-analysis/offline_analysis.py`) against its design document.

Pressure values are modelled as rationals extended with the floating
not-a-number marker; timestamps as calendar records compared
lexicographically, exactly as Python `datetime` compares.
-/

/-- Pressure value: either the missing-value sentinel (numpy `nan`) or a
numeric value, modelled as a rational. -/
inductive P where
  | nan : P
  | val : ℚ → P
deriving DecidableEq, Repr

/-- Strict less-than on float values: any comparison involving `nan` is
false. -/
def pLt : P → P → Bool
  | P.val a, P.val b => decide (a < b)
  | _, _ => false

/-- Equality test on float values: `nan` compares unequal to everything,
itself included. -/
def pEqB : P → P → Bool
  | P.val a, P.val b => decide (a = b)
  | _, _ => false

/-- Test for `a >= b` on float values: false when either side is `nan`. -/
def pGe : P → P → Bool
  | P.val a, P.val b => decide (b ≤ a)
  | _, _ => false

/-- Test for `p != 0` on float values: true for `nan`, since Python's
`nan != 0` is `True`. -/
def pNe0 : P → Bool
  | P.nan => true
  | P.val q => decide (q ≠ 0)

/-- Float division on guarded values: `nan` absorbs. -/
def pdiv : P → P → P
  | P.val a, P.val b => P.val (a / b)
  | _, _ => P.nan

/-- Split a character list on a separator with Python `str.split(c)`
semantics: the empty string yields a single empty field. -/
def splitOnChar (c : Char) : List Char → List (List Char)
  | [] => [[]]
  | a :: rest =>
    let r := splitOnChar c rest
    if a = c then [] :: r
    else (a :: r.headD []) :: r.tail

/-- Decimal digit value of a character, when it is a digit. -/
def digitVal (c : Char) : Option ℕ :=
  if '0' ≤ c ∧ c ≤ '9' then some (c.toNat - 48) else none

/-- Accumulator loop reading a digit string. -/
def digitsToNatAux : List Char → ℕ → Option ℕ
  | [], acc => some acc
  | c :: cs, acc =>
    match digitVal c with
    | some d => digitsToNatAux cs (10 * acc + d)
    | none => none

/-- Parse a nonempty all-digit string as a natural number. -/
def digitsToNat (cs : List Char) : Option ℕ :=
  if cs = [] then none else digitsToNatAux cs 0

/-- Read an optional leading sign, returning the sign and the rest. -/
def readSign : List Char → ℤ × List Char
  | '+' :: cs => (1, cs)
  | '-' :: cs => ((-1 : ℤ), cs)
  | cs => (1, cs)

/-- Parse an unsigned decimal mantissa: digits with an optional point. -/
def parseMantissa (cs : List Char) : Option ℚ :=
  match splitOnChar '.' cs with
  | [a] => (digitsToNat a).map (fun n => (n : ℚ))
  | [a, b] =>
    if a = [] ∧ b = [] then none
    else do
      let ia ← if a = [] then some 0 else digitsToNat a
      let fb ← if b = [] then some 0 else digitsToNat b
      pure ((ia : ℚ) + (fb : ℚ) / 10 ^ b.length)
  | _ => none

/-- Parse a decimal literal as Python's `float(...)` reads the numeric
fields of a scan file: optional sign, digits with optional point, optional
power-of-ten exponent, surrounding blanks ignored. -/
def parseRat (cs : List Char) : Option ℚ :=
  let cs := ((cs.dropWhile (· = ' ')).reverse.dropWhile (· = ' ')).reverse
  let sgr := readSign cs
  let body := sgr.2.map (fun c => if c = 'E' then 'e' else c)
  match splitOnChar 'e' body with
  | [m] => (parseMantissa m).map (fun q => (sgr.1 : ℚ) * q)
  | [m, ex] => do
    let q ← parseMantissa m
    let esgr := readSign ex
    let e ← digitsToNat esgr.2
    pure ((sgr.1 : ℚ) * q * (10 : ℚ) ^ (esgr.1 * (e : ℤ)))
  | _ => none

/-- Calendar timestamp with the components Python `datetime` carries at
seconds resolution. -/
structure DT where
  y : ℕ
  mo : ℕ
  d : ℕ
  h : ℕ
  mi : ℕ
  s : ℕ
deriving DecidableEq, Repr

/-- Component list of a timestamp, most significant first. -/
def DT.toList (t : DT) : List ℕ := [t.y, t.mo, t.d, t.h, t.mi, t.s]

/-- Lexicographic comparison of natural-number lists. -/
def lexLe : List ℕ → List ℕ → Bool
  | [], _ => true
  | _ :: _, [] => false
  | x :: xs, y :: ys => if x < y then true else if y < x then false else lexLe xs ys

/-- Ordering of timestamps: Python `datetime` comparison is lexicographic
on the calendar components. -/
def dtLe (a b : DT) : Bool := lexLe a.toList b.toList

/-- Gregorian leap-year rule. -/
def isLeap (y : ℕ) : Bool := (y % 4 = 0 && y % 100 ≠ 0) || y % 400 = 0

/-- Number of days of a month, with the leap-year rule for February. -/
def daysInMonth (y m : ℕ) : ℕ :=
  if m = 2 then (if isLeap y then 29 else 28)
  else if m = 4 ∨ m = 6 ∨ m = 9 ∨ m = 11 then 30 else 31

/-- Two-digit field of a timestamp string. -/
def dig2 (a b : Char) : Option ℕ := do
  let x ← digitVal a
  let y ← digitVal b
  pure (10 * x + y)

/-- Parse the fixed-width `YYYYMMDD_HHMMSS` timestamp with the field
validation `datetime.strptime` performs: month, day of month (leap years
included), hour, minute and second ranges. -/
def parseDT : List Char → Option DT
  | [y1, y2, y3, y4, m1, m2, d1, d2, u, h1, h2, n1, n2, s1, s2] =>
    if u = '_' then do
      let yh ← dig2 y1 y2
      let yl ← dig2 y3 y4
      let mo ← dig2 m1 m2
      let d ← dig2 d1 d2
      let h ← dig2 h1 h2
      let mi ← dig2 n1 n2
      let s ← dig2 s1 s2
      let y := 100 * yh + yl
      if 1 ≤ y ∧ 1 ≤ mo ∧ mo ≤ 12 ∧ 1 ≤ d ∧ d ≤ daysInMonth y mo ∧
          h ≤ 23 ∧ mi ≤ 59 ∧ s ≤ 59 then
        some ⟨y, mo, d, h, mi, s⟩
      else none
    else none
  | _ => none

/-- Timestamp substring of a scan filename, the translation of
`'_'.join(file.split('_')[2:]).split('.')[0]`. -/
def timePart (name : List Char) : List Char :=
  (splitOnChar '.' (List.intercalate ['_'] ((splitOnChar '_' name).drop 2))).headD []

/-- Extension filter `f.endswith('.dat')` applied by `load_data`. -/
def isDatName (name : List Char) : Bool :=
  List.isSuffixOf ['.', 'd', 'a', 't'] name

/-- Parse file content, given as its list of lines, the way
`np.loadtxt(..., delimiter=',', skiprows=1)` followed by the two column
selections does: drop the header line, ignore blank lines, parse every
comma-separated field as a float, and require at least two rows of equal
width at least two (fewer rows or ragged rows make the column accesses or
the `interp1d` construction in `load_data` fail, which is a parse failure
of that file). -/
def parseTable (lines : List (List Char)) : Option (List ℚ × List ℚ) := do
  let rows := (lines.drop 1).filter (fun l => l ≠ [])
  let rs ← rows.mapM (fun ln => (splitOnChar ',' ln).mapM parseRat)
  if 2 ≤ rs.length ∧ 2 ≤ (rs.headD []).length ∧
      (∀ r ∈ rs, r.length = (rs.headD []).length) then
    some (rs.map (fun r => r.getD 0 0), rs.map (fun r => r.getD 1 0))
  else none

/-- Linear interpolation at one point over knots sorted strictly
increasing, as `scipy.interpolate.interp1d(..., bounds_error=False,
fill_value=np.nan)` evaluates: the sentinel outside the knot range, the
straight line between the bracketing knots inside. -/
def interpPoint (g : ℚ) : List (ℚ × ℚ) → P
  | [] => P.nan
  | [_] => P.nan
  | (x0, y0) :: (x1, y1) :: rest =>
    if g < x0 then P.nan
    else if g ≤ x1 then P.val (y0 + (y1 - y0) * (g - x0) / (x1 - x0))
    else interpPoint g ((x1, y1) :: rest)

/-- Resampling of one raw scan onto the target grid, the evaluation
`interp_func(target_mass_grid)` inside `load_data`. -/
def interpolate (xs ys : List ℚ) (grid : List ℚ) : List P :=
  grid.map (fun g => interpPoint g (xs.zip ys))

/-- Run-phase label: the closed enumeration of `_assign_run_label` results
(the strings `"control_run"` and `"xenon_run"`, and Python `None`). -/
inductive Label where
  | control : Label
  | xenon : Label
  | unlabeled : Label
deriving DecidableEq, Repr

/-- Control-run interval configured in `__init__`. -/
def controlRun : DT × DT := (⟨2024, 9, 11, 16, 46, 0⟩, ⟨2024, 9, 16, 9, 44, 0⟩)

/-- Xenon-run interval configured in `__init__`. -/
def xenonRun : DT × DT := (⟨2024, 9, 16, 11, 21, 0⟩, ⟨2024, 9, 26, 11, 0, 0⟩)

/-- Translation of `_assign_run_label`: the control interval is tested
first with closed bounds, then the xenon interval, else no label. -/
def assignRunLabel (ctrl xen : DT × DT) (t : DT) : Label :=
  if dtLe ctrl.1 t ∧ dtLe t ctrl.2 then Label.control
  else if dtLe xen.1 t ∧ dtLe t xen.2 then Label.xenon
  else Label.unlabeled

/-- Ingested scan: timestamp, interpolated pressure vector, run label. -/
structure Scan where
  time : DT
  pressures : List P
  label : Label
deriving DecidableEq, Repr

/-- Input scan file: its name and its content as a list of lines. -/
structure ScanFile where
  name : List Char
  content : List (List Char)
deriving DecidableEq, Repr

/-- Per-file failure: the two failure points of the `load_data` loop body,
the `datetime.strptime` call and the `np.loadtxt` call. -/
inductive IngestError where
  | filenameFormat : IngestError
  | contentFormat : IngestError
deriving DecidableEq, Repr

/-- Translation of one iteration of the `load_data` loop: parse the
filename timestamp, parse the content table, interpolate onto the grid and
attach the run label. -/
def parseScanFile (grid : List ℚ) (f : ScanFile) : Except IngestError Scan :=
  match parseDT (timePart f.name) with
  | none => Except.error IngestError.filenameFormat
  | some t =>
    match parseTable f.content with
    | none => Except.error IngestError.contentFormat
    | some mp =>
      Except.ok ⟨t, interpolate mp.1 mp.2 grid, assignRunLabel controlRun xenonRun t⟩

/-- The `load_data` loop over the discovered files.  The Python loop body
has no exception handler, so the first parse failure aborts the whole
traversal, which the `Except` propagation mirrors. -/
def ingestList (grid : List ℚ) : List ScanFile → Except IngestError (List Scan)
  | [] => Except.ok []
  | f :: rest => do
    let s ← parseScanFile grid f
    let l ← ingestList grid rest
    pure (s :: l)

/-- Ordering used to sort scans: non-decreasing timestamp. -/
def scanLe (a b : Scan) : Prop := dtLe a.time b.time = true

instance : DecidableRel scanLe := fun a b => Bool.decEq _ _

/-- Stable sort of the scans by timestamp, the model of
`time_and_data.sort(key=lambda x: x[0])`: Python's list sort is a stable
sort, and insertion sort is its extensional equal. -/
def sortScans (l : List Scan) : List Scan := List.insertionSort scanLe l

/-- Translation of `load_data`: keep the files with the `.dat` extension,
ingest each in discovery order, then sort the scans by timestamp. -/
def loadData (grid : List ℚ) (files : List ScanFile) : Except IngestError (List Scan) :=
  Except.map sortScans (ingestList grid (files.filter (fun f => isDatName f.name)))

/-- Default target mass grid `np.arange(1, 150.05, 0.05)`: the 2981 points
from 1 to 150 in steps of one twentieth. -/
def defaultGrid : List ℚ := (List.range 2981).map (fun k => 1 + (k : ℚ) / 20)

/-- Index of the first minimum of a rational list (`np.argmin`). -/
def argminQ : List ℚ → ℕ
  | [] => 0
  | [_] => 0
  | a :: b :: rest =>
    let j := argminQ (b :: rest)
    if a ≤ (b :: rest).getD j 0 then 0 else j + 1

/-- Grid index closest to the requested mass, the translation of
`(np.abs(self.masses - mass)).argmin()`. -/
def nearestIdx (masses : List ℚ) (mass : ℚ) : ℕ :=
  argminQ (masses.map (fun m => |m - mass|))

/-- Translation of `get_mass_evolution`: for each scan look up the grid
index closest to the requested mass, skip the scan when the closest grid
mass deviates by more than the fixed `mass_exclusion = 0.5`, otherwise
emit the pressure at that index together with the scan timestamp. -/
def getMassEvolution {τ : Type} (masses : List ℚ) (data : List (List P))
    (times : List τ) (mass : ℚ) : List P × List τ :=
  (data.zip times).foldr
    (fun pt acc =>
      if |masses.getD (nearestIdx masses mass) 0 - mass| > 1 / 2 then acc
      else (pt.1.getD (nearestIdx masses mass) P.nan :: acc.1, pt.2 :: acc.2))
    ([], [])

/-- Plateau advance of scipy `_local_maxima_1d`: the first index at least
`j`, bounded by `iMax`, whose value differs from `v`. -/
def findAhead : ℕ → List P → ℕ → ℕ → P → ℕ
  | 0, _, _, j, _ => j
  | fuel + 1, x, iMax, j, v =>
    if j < iMax ∧ pEqB (x.getD j P.nan) v then findAhead fuel x iMax (j + 1) v else j

/-- Main loop of scipy `_local_maxima_1d`: indices of the local maxima, a
plateau contributing the midpoint of its edges. -/
def lmaxAux : ℕ → List P → ℕ → ℕ → List ℕ
  | 0, _, _, _ => []
  | fuel + 1, x, iMax, i =>
    if i < iMax then
      if pLt (x.getD (i - 1) P.nan) (x.getD i P.nan) then
        let iAhead := findAhead x.length x iMax (i + 1) (x.getD i P.nan)
        if pLt (x.getD iAhead P.nan) (x.getD i P.nan) then
          (i + (iAhead - 1)) / 2 :: lmaxAux fuel x iMax (iAhead + 1)
        else lmaxAux fuel x iMax (i + 1)
      else lmaxAux fuel x iMax (i + 1)
    else []

/-- Local maxima of a sample sequence (scipy `_local_maxima_1d`). -/
def localMaxima (x : List P) : List ℕ := lmaxAux x.length x (x.length - 1) 1

/-- Sort order `np.argsort` uses on float priorities: `nan` sorts last. -/
def prioLe : P → P → Bool
  | P.nan, P.nan => true
  | P.nan, P.val _ => false
  | P.val _, P.nan => true
  | P.val a, P.val b => decide (a ≤ b)

/-- Stable insertion of an index into an index list ordered by priority. -/
def argsortInsert (pr : List P) (i : ℕ) : List ℕ → List ℕ
  | [] => [i]
  | j :: rest =>
    if prioLe (pr.getD i P.nan) (pr.getD j P.nan) then i :: j :: rest
    else j :: argsortInsert pr i rest

/-- Insertion sort of index lists by priority. -/
def argsortAux (pr : List P) : List ℕ → List ℕ
  | [] => []
  | i :: rest => argsortInsert pr i (argsortAux pr rest)

/-- Index permutation sorting the priorities ascending (`np.argsort`). -/
def argsortP (pr : List P) : List ℕ := argsortAux pr (List.range pr.length)

/-- Pruning pass of scipy `_select_by_peak_distance`: visit peaks from the
highest priority down; a still-kept peak deletes every other peak strictly
closer than `dist` positions. -/
def sbpdLoop (peaks : List ℕ) (dist : ℕ) : List ℕ → List Bool → List Bool
  | [], keep => keep
  | j :: rest, keep =>
    if keep.getD j false then
      let pj := peaks.getD j 0
      let keep' := List.zipWith
        (fun k b =>
          if k ≠ j ∧ (max (peaks.getD k 0) pj - min (peaks.getD k 0) pj) < dist then false
          else b)
        (List.range keep.length) keep
      sbpdLoop peaks dist rest keep'
    else sbpdLoop peaks dist rest keep

/-- Peaks surviving the minimum-distance condition of scipy
`_select_by_peak_distance`. -/
def selectByPeakDistance (peaks : List ℕ) (pr : List P) (dist : ℕ) : List ℕ :=
  let keep := sbpdLoop peaks dist (argsortP pr).reverse (List.replicate peaks.length true)
  ((peaks.zip keep).filter (fun pk => pk.2)).map (fun pk => pk.1)

/-- Translation of `scipy.signal.find_peaks(x, distance=d, height=h)`:
local maxima, filtered by minimum height first, then by minimum distance
with the peak height as priority. -/
def findPeaks (x : List P) (dist : ℕ) (height : ℚ) : List ℕ :=
  let pks := (localMaxima x).filter (fun p => pGe (x.getD p P.nan) (P.val height))
  selectByPeakDistance pks (pks.map (fun p => x.getD p P.nan)) dist

/-- Contiguous grid sub-range within half a window of the target mass,
paired with the corresponding pressures: the boolean mask of
`get_peakfound_pressure`. -/
def massWindow (masses : List ℚ) (pressures : List P) (mass w : ℚ) : List (ℚ × P) :=
  (masses.zip pressures).filter
    (fun mp => decide (mass - w / 2 ≤ mp.1 ∧ mp.1 ≤ mass + w / 2))

/-- Translation of `get_peakfound_pressure`.  The Gaussian smoothing kernel
`scipy.ndimage.gaussian_filter(..., sigma=2)` is an irrational convolution,
which the embedding abstracts as the function argument `sm`; every verified
property is independent of the kernel weights. -/
def getPeakfoundPressure (sm : List P → List P) (masses : List ℚ)
    (pressures : List P) (mass w : ℚ) : Option (P × ℚ) :=
  let win := massWindow masses pressures mass w
  if win = [] then none
  else
    let mw := win.map Prod.fst
    let pw := win.map Prod.snd
    let smoothed := sm pw
    let peaks := findPeaks smoothed 2 (5 / 1000000000000)
    if peaks = [] then
      let idx := argminQ (mw.map (fun m => |m - mass|))
      some (pw.getD idx P.nan, mw.getD idx 0)
    else
      let pk := peaks.getD (argminQ (peaks.map (fun p => |mw.getD p 0 - mass|))) 0
      some (smoothed.getD pk P.nan, mw.getD pk 0)

/-- Extraction loop of `plot_mass_evolution_peakfound_relative`: per scan
compute the peak-window result for both masses, and emit the ratio only
when both are present and the denominator is nonzero under float
comparison. -/
def getRatioSeries {τ : Type} (sm : List P → List P) (masses : List ℚ)
    (data : List (List P)) (times : List τ) (mass massRel w : ℚ) : List P × List τ :=
  (data.zip times).foldr
    (fun pt acc =>
      match getPeakfoundPressure sm masses pt.1 mass w,
            getPeakfoundPressure sm masses pt.1 massRel w with
      | some pv, some rv =>
        if pNe0 rv.1 then (pdiv pv.1 rv.1 :: acc.1, pt.2 :: acc.2) else acc
      | _, _ => acc)
    ([], [])

/-- Walk of `_handle_large_gaps`, carrying the cumulative shift and the
previous original time; it also returns the gap-marker positions, the
pre-shift `last_time` of each detected gap. -/
def hlgAux : ℚ → ℚ → List (ℚ × ℚ) → List (ℚ × ℚ) × List ℚ
  | _, _, [] => ([], [])
  | shift, last, tp :: rest =>
    if tp.1 - last > 24 then
      let shiftNew := shift + (tp.1 - last)
      let r := hlgAux shiftNew tp.1 rest
      ((tp.1 - shiftNew, tp.2) :: r.1, last :: r.2)
    else
      let r := hlgAux shift tp.1 rest
      ((tp.1 - shift, tp.2) :: r.1, r.2)

/-- Translation of `_handle_large_gaps` with the 24-hour threshold the
source hard-codes: compressed times, pressures, marker positions. -/
def handleLargeGaps (ts ps : List ℚ) : List ℚ × List ℚ × List ℚ :=
  match ts with
  | [] => ([], [], [])
  | t0 :: _ =>
    let r := hlgAux 0 t0 (ts.zip ps)
    (r.1.map Prod.fst, r.1.map Prod.snd, r.2)

/-! Helper lemmas about the timestamp order. -/

theorem lexLe_refl (a : List ℕ) : lexLe a a = true := by
  induction a with
  | nil => rfl
  | cons x xs ih => simp [lexLe, ih]

theorem lexLe_total (a b : List ℕ) : lexLe a b = true ∨ lexLe b a = true := by
  induction a generalizing b with
  | nil => exact Or.inl rfl
  | cons x xs ih =>
    cases b with
    | nil => exact Or.inr rfl
    | cons y ys =>
      rcases lt_trichotomy x y with h | h | h
      · exact Or.inl (by simp [lexLe, h])
      · subst h
        rcases ih ys with h2 | h2
        · exact Or.inl (by simp [lexLe, h2])
        · exact Or.inr (by simp [lexLe, h2])
      · exact Or.inr (by simp [lexLe, h])

theorem lexLe_trans (a b c : List ℕ) (hab : lexLe a b = true)
    (hbc : lexLe b c = true) : lexLe a c = true := by
  induction a generalizing b c with
  | nil => rfl
  | cons x xs ih =>
    cases b with
    | nil => simp [lexLe] at hab
    | cons y ys =>
      cases c with
      | nil => simp [lexLe] at hbc
      | cons z zs =>
        simp only [lexLe] at hab hbc ⊢
        split_ifs at hab hbc ⊢ <;>
          first
            | rfl
            | omega
            | exact ih ys zs hab hbc

theorem dtLe_refl (t : DT) : dtLe t t = true := lexLe_refl _

instance : IsTrans (ℚ × ℚ) (fun a b : ℚ × ℚ => a.1 < b.1) :=
  ⟨fun _ _ _ h1 h2 => lt_trans h1 h2⟩

instance : IsTotal Scan scanLe :=
  ⟨fun a b => lexLe_total a.time.toList b.time.toList⟩

instance : IsTrans Scan scanLe :=
  ⟨fun _ _ _ hab hbc => lexLe_trans _ _ _ hab hbc⟩

instance {e a : Type} [DecidableEq e] [DecidableEq a] : DecidableEq (Except e a) :=
  fun x y =>
  match x, y with
  | Except.error e1, Except.error e2 =>
    if h : e1 = e2 then isTrue (by rw [h]) else isFalse (fun hc => h (by injection hc))
  | Except.error _, Except.ok _ => isFalse (fun hc => Except.noConfusion hc)
  | Except.ok _, Except.error _ => isFalse (fun hc => Except.noConfusion hc)
  | Except.ok a1, Except.ok a2 =>
    if h : a1 = a2 then isTrue (by rw [h]) else isFalse (fun hc => h (by injection hc))

/-- Sample scan file with timestamp 2024-09-11 17:00:00 and two data rows. -/
def sampleEarly : ScanFile :=
  ⟨['r', 'g', 'a', '_', 's', '_', '2', '0', '2', '4', '0', '9', '1', '1', '_',
      '1', '7', '0', '0', '0', '0', '.', 'd', 'a', 't'],
    [['m', ',', 'p'], ['1', ',', '5'], ['2', ',', '6']]⟩

/-- Sample scan file with timestamp 2024-09-12 00:00:00 and two data rows. -/
def sampleLate : ScanFile :=
  ⟨['r', 'g', 'a', '_', 's', '_', '2', '0', '2', '4', '0', '9', '1', '2', '_',
      '0', '0', '0', '0', '0', '0', '.', 'd', 'a', 't'],
    [['m', ',', 'p'], ['1', ',', '7'], ['2', ',', '8']]⟩

/-- Sample scan file whose filename encodes no parseable timestamp. -/
def sampleBadName : ScanFile :=
  ⟨['r', 'g', 'a', '_', 's', '_', 'b', 'a', 'n', 'a', 'n', 'a', '.', 'd', 'a', 't'],
    [['m', ',', 'p'], ['1', ',', '5'], ['2', ',', '6']]⟩

/-- Guard of the ratio loop body: both peak-window results present and the
relative pressure nonzero under float comparison
(`p is not None and p_rel is not None and p_rel != 0`). -/
def ratioGuard (sm : List P → List P) (masses : List ℚ) (mass massRel w : ℚ)
    (ps : List P) : Bool :=
  match getPeakfoundPressure sm masses ps mass w,
        getPeakfoundPressure sm masses ps massRel w with
  | some _, some rv => pNe0 rv.1
  | _, _ => false

/-- Value emitted by the ratio loop body for a guarded scan (`p / p_rel`). -/
def ratioValue (sm : List P → List P) (masses : List ℚ) (mass massRel w : ℚ)
    (ps : List P) : P :=
  match getPeakfoundPressure sm masses ps mass w,
        getPeakfoundPressure sm masses ps massRel w with
  | some pv, some rv => pdiv pv.1 rv.1
  | _, _ => P.nan



/-! Claim C8: run labeling. -/

/-- C8 counterexample: the example timestamp 2024-09-16 12:00 lies after the
xenon run's start 2024-09-16 11:21, so `_assign_run_label` labels it Xenon,
not Unlabeled as the claim states. -/
theorem c8_example_counterexample :
    assignRunLabel controlRun xenonRun ⟨2024, 9, 16, 12, 0, 0⟩ = Label.xenon ∧
    assignRunLabel controlRun xenonRun ⟨2024, 9, 16, 12, 0, 0⟩ ≠ Label.unlabeled := by
  constructor
  · decide
  · decide

/-- C8 (amended): run labeling is total over the three labels and uses
closed intervals — a timestamp equal to an interval's start or end bound is
included, the control interval is tested first, and with the default
intervals the example timestamps 2024-09-11 17:00, 2024-09-16 12:00 and
2024-09-20 09:00 are labeled Control, Xenon and Xenon respectively, while a
timestamp in the inter-run gap such as 2024-09-16 10:00 is Unlabeled. -/
theorem c8_run_labeling :
    (∀ ctrl xen : DT × DT, ∀ t : DT,
      assignRunLabel ctrl xen t = Label.control ∨
      assignRunLabel ctrl xen t = Label.xenon ∨
      assignRunLabel ctrl xen t = Label.unlabeled)
    ∧ (∀ ctrl xen : DT × DT, ∀ t : DT,
        dtLe ctrl.1 t = true → dtLe t ctrl.2 = true →
        assignRunLabel ctrl xen t = Label.control)
    ∧ (∀ ctrl xen : DT × DT, dtLe ctrl.1 ctrl.2 = true →
        assignRunLabel ctrl xen ctrl.1 = Label.control ∧
        assignRunLabel ctrl xen ctrl.2 = Label.control)
    ∧ (∀ ctrl xen : DT × DT, ∀ t : DT,
        dtLe xen.1 t = true → dtLe t xen.2 = true →
        ¬(dtLe ctrl.1 t = true ∧ dtLe t ctrl.2 = true) →
        assignRunLabel ctrl xen t = Label.xenon)
    ∧ assignRunLabel controlRun xenonRun ⟨2024, 9, 11, 17, 0, 0⟩ = Label.control
    ∧ assignRunLabel controlRun xenonRun ⟨2024, 9, 16, 12, 0, 0⟩ = Label.xenon
    ∧ assignRunLabel controlRun xenonRun ⟨2024, 9, 20, 9, 0, 0⟩ = Label.xenon
    ∧ assignRunLabel controlRun xenonRun ⟨2024, 9, 16, 10, 0, 0⟩ = Label.unlabeled := by
  refine ⟨?_, ?_, ?_, ?_, by decide, by decide, by decide, by decide⟩
  · intro ctrl xen t
    unfold assignRunLabel
    split_ifs <;> simp
  · intro ctrl xen t h1 h2
    unfold assignRunLabel
    rw [if_pos ⟨h1, h2⟩]
  · intro ctrl xen h
    constructor
    · unfold assignRunLabel
      rw [if_pos ⟨dtLe_refl _, h⟩]
    · unfold assignRunLabel
      rw [if_pos ⟨h, dtLe_refl _⟩]
  · intro ctrl xen t h1 h2 hc
    unfold assignRunLabel
    rw [if_neg ?_, if_pos ⟨h1, h2⟩]
    intro hcc
    exact hc ⟨hcc.1, hcc.2⟩

/-- C8 witness: the amended labeling theorem applied at the default
intervals and a boundary timestamp. -/
theorem c8_run_labeling_witness :
    assignRunLabel controlRun xenonRun ⟨2024, 9, 11, 16, 46, 0⟩ = Label.control ∧
    assignRunLabel controlRun xenonRun ⟨2024, 9, 26, 11, 0, 0⟩ = Label.xenon :=
  ⟨(c8_run_labeling.2.2.1 controlRun xenonRun (by decide)).1,
   c8_run_labeling.2.2.2.1 controlRun xenonRun ⟨2024, 9, 26, 11, 0, 0⟩
     (by decide) (by decide) (by decide)⟩

/-! Claim C5: gap compression. -/

theorem hlgAux_small (pairs : List (ℚ × ℚ)) : ∀ (shift last : ℚ),
    List.Chain (fun a b => b - a ≤ 24) last (pairs.map Prod.fst) →
    hlgAux shift last pairs = (pairs.map (fun tp => (tp.1 - shift, tp.2)), []) := by
  induction pairs with
  | nil => intro shift last _; rfl
  | cons tp rest ih =>
    intro shift last h
    rw [List.map_cons] at h
    cases h with
    | cons hstep hrest =>
      simp only [hlgAux, if_neg (not_lt.mpr hstep), List.map_cons]
      rw [ih shift tp.1 hrest]

theorem hlgAux_append_small (xs ys : List (ℚ × ℚ)) : ∀ (shift last : ℚ),
    List.Chain (fun a b => b - a ≤ 24) last (xs.map Prod.fst) →
    hlgAux shift last (xs ++ ys) =
      ((xs.map fun tp => (tp.1 - shift, tp.2)) ++
          (hlgAux shift ((xs.map Prod.fst).getLastD last) ys).1,
        (hlgAux shift ((xs.map Prod.fst).getLastD last) ys).2) := by
  induction xs with
  | nil => intro shift last _; simp
  | cons tp rest ih =>
    intro shift last h
    rw [List.map_cons] at h
    cases h with
    | cons hstep hrest =>
      simp only [List.cons_append, hlgAux, if_neg (not_lt.mpr hstep), List.map_cons,
        List.getLastD_cons, List.append_eq]
      rw [ih shift tp.1 hrest]

theorem getLastD_ne_nil {α : Type} (l : List α) (a b : α) (h : l ≠ []) :
    l.getLastD a = l.getLastD b := by
  cases l with
  | nil => exact absurd rfl h
  | cons c t => rw [List.getLastD_cons, List.getLastD_cons]

theorem getLastD_append_right {α : Type} (l1 l2 : List α) (h : l2 ≠ []) :
    ∀ d, (l1 ++ l2).getLastD d = l2.getLastD d := by
  induction l1 with
  | nil => intro d; rfl
  | cons a t ih =>
    intro d
    rw [List.cons_append, List.getLastD_cons, ih]
    exact getLastD_ne_nil l2 a d h

theorem getLastD_map {α β : Type} (f : α → β) (l : List α) (a : α) :
    (l.map f).getLastD (f a) = f (l.getLastD a) := by
  induction l generalizing a with
  | nil => rfl
  | cons b t ih => rw [List.map_cons, List.getLastD_cons, List.getLastD_cons, ih]

/-- C5: for a sorted series made of two runs of small steps separated by a
single gap of duration `g > 24` hours, `_handle_large_gaps` keeps the
pre-gap times, shifts the post-gap times by exactly `g` (the cumulative
shift starts at 0 and increases by the step at the gap), keeps the
pressures and their order unchanged, records one gap marker at the
pre-shift last time before the gap, yields non-decreasing compressed
times, and reduces the total elapsed span by exactly `g`. -/
theorem c5_gap_compression (xs ys ps1 ps2 : List ℚ) (g : ℚ)
    (hxs : xs ≠ []) (hys : ys ≠ [])
    (hl1 : xs.length = ps1.length) (hl2 : ys.length = ps2.length)
    (hsort : List.Chain' (· ≤ ·) (xs ++ ys))
    (hxsSmall : List.Chain' (fun a b => b - a ≤ 24) xs)
    (hysSmall : List.Chain' (fun a b => b - a ≤ 24) ys)
    (hgap : ys.headD 0 - xs.getLastD 0 = g) (hg : 24 < g) :
    handleLargeGaps (xs ++ ys) (ps1 ++ ps2) =
      (xs ++ ys.map (fun t => t - g), ps1 ++ ps2, [xs.getLastD 0])
    ∧ List.Chain' (· ≤ ·) (xs ++ ys.map (fun t => t - g))
    ∧ (xs ++ ys.map (fun t => t - g)).getLastD 0 -
        (xs ++ ys.map (fun t => t - g)).headD 0
        = ((xs ++ ys).getLastD 0 - (xs ++ ys).headD 0) - g := by
  obtain ⟨x0, xs', rfl⟩ := List.exists_cons_of_ne_nil hxs
  obtain ⟨y0, ys', rfl⟩ := List.exists_cons_of_ne_nil hys
  cases ps2 with
  | nil => simp at hl2
  | cons q0 ps2' =>
    have hL : ((x0 :: xs').getLastD x0) = (x0 :: xs').getLastD 0 :=
      getLastD_ne_nil _ _ _ (by simp)
    have hzip1 : ((x0 :: xs') ++ (y0 :: ys')).zip (ps1 ++ q0 :: ps2') =
        (x0 :: xs').zip ps1 ++ (y0 :: ys').zip (q0 :: ps2') :=
      List.zip_append hl1
    have hfst1 : ((x0 :: xs').zip ps1).map Prod.fst = x0 :: xs' :=
      List.map_fst_zip _ _ (le_of_eq hl1)
    have hchain1 : List.Chain (fun a b => b - a ≤ 24) x0
        (((x0 :: xs').zip ps1).map Prod.fst) := by
      rw [hfst1]
      exact List.Chain.cons (by norm_num) hxsSmall
    have hstep2 : hlgAux 0 ((x0 :: xs').getLastD x0) ((y0 :: ys').zip (q0 :: ps2')) =
        ((y0 - g, q0) :: (ys'.zip ps2').map (fun tp : ℚ × ℚ => (tp.1 - g, tp.2)),
          [(x0 :: xs').getLastD x0]) := by
      have hgap' : y0 - (x0 :: xs').getLastD x0 = g := by
        rw [hL]
        simpa using hgap
      have hcond : y0 - (x0 :: xs').getLastD x0 > 24 := by rw [hgap']; exact hg
      have hchain2 : List.Chain (fun a b => b - a ≤ 24) y0
          ((ys'.zip ps2').map Prod.fst) := by
        rw [List.map_fst_zip _ _ (le_of_eq (Nat.succ_injective hl2))]
        exact hysSmall
      rw [List.zip_cons_cons]
      simp only [hlgAux]
      rw [if_pos hcond, zero_add, hgap', hlgAux_small (ys'.zip ps2') g y0 hchain2]
    have hmain : hlgAux 0 x0 (((x0 :: xs') ++ (y0 :: ys')).zip (ps1 ++ q0 :: ps2')) =
        (((x0 :: xs').zip ps1).map (fun tp : ℚ × ℚ => (tp.1 - 0, tp.2)) ++
            ((y0 - g, q0) :: (ys'.zip ps2').map (fun tp : ℚ × ℚ => (tp.1 - g, tp.2))),
          [(x0 :: xs').getLastD x0]) := by
      rw [hzip1, hlgAux_append_small _ _ 0 x0 hchain1, hfst1, hstep2]
    have hout1 : (((x0 :: xs').zip ps1).map (fun tp : ℚ × ℚ => (tp.1 - 0, tp.2)) ++
          ((y0 - g, q0) :: (ys'.zip ps2').map (fun tp : ℚ × ℚ => (tp.1 - g, tp.2)))).map Prod.fst =
        (x0 :: xs') ++ (y0 :: ys').map (fun t => t - g) := by
      simp only [List.map_append, List.map_map, List.map_cons]
      congr 1
      · have : (Prod.fst ∘ fun tp : ℚ × ℚ => (tp.1 - 0, tp.2)) = Prod.fst := by
          funext tp; simp
        rw [this, hfst1]
      · congr 1
        have : (Prod.fst ∘ fun tp : ℚ × ℚ => (tp.1 - g, tp.2)) =
            (fun t => t - g) ∘ Prod.fst := by
          funext tp; simp
        rw [this, ← List.map_map, List.map_fst_zip _ _ (le_of_eq (Nat.succ_injective hl2))]
    have hout2 : (((x0 :: xs').zip ps1).map (fun tp : ℚ × ℚ => (tp.1 - 0, tp.2)) ++
          ((y0 - g, q0) :: (ys'.zip ps2').map (fun tp : ℚ × ℚ => (tp.1 - g, tp.2)))).map Prod.snd =
        ps1 ++ q0 :: ps2' := by
      simp only [List.map_append, List.map_map, List.map_cons]
      congr 1
      · have : (Prod.snd ∘ fun tp : ℚ × ℚ => (tp.1 - 0, tp.2)) = Prod.snd := by
          funext tp; simp
        rw [this, List.map_snd_zip _ _ (le_of_eq hl1.symm)]
      · congr 1
        have : (Prod.snd ∘ fun tp : ℚ × ℚ => (tp.1 - g, tp.2)) = Prod.snd := by
          funext tp; simp
        rw [this, List.map_snd_zip _ _ (le_of_eq (Nat.succ_injective hl2).symm)]
    refine ⟨?_, ?_, ?_⟩
    · show (let r := hlgAux 0 x0 ((((x0 :: xs') ++ (y0 :: ys'))).zip (ps1 ++ q0 :: ps2'));
        (r.1.map Prod.fst, r.1.map Prod.snd, r.2)) = _
      rw [hmain]
      simp only [hout1, hout2, hL]
    · rw [List.chain'_append] at hsort ⊢
      refine ⟨hsort.1, ?_, ?_⟩
      · rw [List.chain'_map]
        exact hsort.2.1.imp (fun a b hab => sub_le_sub_right hab g)
      · intro x hx y hy
        have hhead : ((y0 :: ys').map fun t => t - g).head? = some (y0 - g) := rfl
        rw [hhead] at hy
        cases hy
        have hxval : (x0 :: xs').getLastD 0 = x := by
          rw [List.getLastD_eq_getLast?]
          rw [Option.mem_def] at hx
          rw [hx]
          rfl
        have hgap' : y0 - (x0 :: xs').getLastD 0 = g := by simpa using hgap
        linarith
    · have hmapne : ((y0 :: ys').map fun t => t - g) ≠ [] := by simp
      simp only [List.cons_append, List.headD_cons, List.getLastD_cons]
      rw [getLastD_append_right _ _ hmapne, getLastD_append_right xs' (y0 :: ys') (by simp)]
      rw [getLastD_ne_nil _ x0 ((fun t : ℚ => t - g) y0) hmapne,
        getLastD_map (fun t => t - g) (y0 :: ys') y0,
        getLastD_ne_nil (y0 :: ys') y0 x0 (by simp)]
      ring

/-- C5 witness: the gap-compression theorem applied to a concrete series
with one 29-hour gap. -/
theorem c5_gap_compression_witness :
    handleLargeGaps ([0, 1] ++ [30, 31]) ([5, 6] ++ [7, 8]) =
      ([0, 1] ++ [30, 31].map (fun t => t - 29), [5, 6] ++ [7, 8], [[0, 1].getLastD 0]) :=
  (c5_gap_compression [0, 1] [30, 31] [5, 6] [7, 8] 29 (by simp) (by simp)
    (by simp) (by simp) (by norm_num [List.chain'_cons])
    (by norm_num [List.chain'_cons]) (by norm_num [List.chain'_cons])
    (by norm_num) (by norm_num)).1

/-! Claims C6 and C10: nearest-point extraction. -/

theorem argminQ_lt_length (l : List ℚ) (h : l ≠ []) : argminQ l < l.length := by
  induction l with
  | nil => exact absurd rfl h
  | cons a t ih =>
    cases t with
    | nil => simp [argminQ]
    | cons b u =>
      simp only [argminQ]
      split_ifs
      · simp
      · have := ih (by simp)
        simpa [Nat.succ_lt_succ_iff] using this

theorem argminQ_le (l : List ℚ) : ∀ k < l.length, l.getD (argminQ l) 0 ≤ l.getD k 0 := by
  induction l with
  | nil => intro k hk; simp at hk
  | cons a t ih =>
    cases t with
    | nil =>
      intro k hk
      cases k with
      | zero => simp [argminQ]
      | succ k' => simp at hk
    | cons b u =>
      intro k hk
      simp only [argminQ]
      split_ifs with hle
      · cases k with
        | zero => simp
        | succ k' =>
          rw [List.getD_cons_zero, List.getD_cons_succ]
          exact le_trans hle (ih k' (Nat.lt_of_succ_lt_succ hk))
      · cases k with
        | zero =>
          rw [List.getD_cons_succ, List.getD_cons_zero]
          exact le_of_lt (lt_of_not_le hle)
        | succ k' =>
          rw [List.getD_cons_succ, List.getD_cons_succ]
          exact ih k' (Nat.lt_of_succ_lt_succ hk)

theorem argminQ_first (l : List ℚ) : ∀ k < argminQ l, l.getD (argminQ l) 0 < l.getD k 0 := by
  induction l with
  | nil => intro k hk; simp [argminQ] at hk
  | cons a t ih =>
    cases t with
    | nil => intro k hk; simp [argminQ] at hk
    | cons b u =>
      intro k hk
      simp only [argminQ] at hk ⊢
      split_ifs with hle
      · rw [if_pos hle] at hk
        exact absurd hk (Nat.not_lt_zero k)
      · rw [if_neg hle] at hk
        cases k with
        | zero =>
          rw [List.getD_cons_succ, List.getD_cons_zero]
          exact lt_of_not_le hle
        | succ k' =>
          rw [List.getD_cons_succ, List.getD_cons_succ]
          exact ih k' (Nat.lt_of_succ_lt_succ hk)

theorem getD_map_abs (masses : List ℚ) (mass : ℚ) (k : ℕ) (hk : k < masses.length) :
    (masses.map (fun m => |m - mass|)).getD k 0 = |masses.getD k 0 - mass| := by
  rw [List.getD_eq_getElem?_getD, List.getElem?_map, List.getD_eq_getElem?_getD,
    List.getElem?_eq_getElem hk]
  rfl

theorem getMassEvolution_spec {τ : Type} (masses : List ℚ) (data : List (List P))
    (times : List τ) (mass : ℚ) :
    getMassEvolution masses data times mass =
      if |masses.getD (nearestIdx masses mass) 0 - mass| > 1 / 2 then ([], [])
      else
        ((data.zip times).map (fun pt => pt.1.getD (nearestIdx masses mass) P.nan),
          (data.zip times).map Prod.snd) := by
  unfold getMassEvolution
  generalize data.zip times = l
  split_ifs with h
  · induction l with
    | nil => rfl
    | cons p t ih => exact ih
  · induction l with
    | nil => rfl
    | cons p t ih =>
      rw [List.foldr_cons, ih]
      rfl

/-- C6: nearest-point extraction selects the grid index minimizing the
absolute deviation from the requested mass (lowest index on exact ties),
skips every scan when that minimal deviation exceeds the 0.5 amu
tolerance, otherwise emits per scan the pressure at that index with the
scan timestamp; consequently a nonempty result implies the selected grid
mass deviates by at most the tolerance. -/
theorem c6_nearest_point {τ : Type} (masses : List ℚ) (data : List (List P))
    (times : List τ) (mass : ℚ) (hm : masses ≠ []) (hlen : data.length = times.length) :
    (nearestIdx masses mass < masses.length ∧
      ∀ k < masses.length,
        |masses.getD (nearestIdx masses mass) 0 - mass| ≤ |masses.getD k 0 - mass|)
    ∧ (∀ k < nearestIdx masses mass,
        |masses.getD (nearestIdx masses mass) 0 - mass| < |masses.getD k 0 - mass|)
    ∧ (|masses.getD (nearestIdx masses mass) 0 - mass| > 1 / 2 →
        getMassEvolution masses data times mass = ([], []))
    ∧ (¬|masses.getD (nearestIdx masses mass) 0 - mass| > 1 / 2 →
        getMassEvolution masses data times mass =
          (data.map (fun ps => ps.getD (nearestIdx masses mass) P.nan), times))
    ∧ ((getMassEvolution masses data times mass).1 ≠ [] →
        |masses.getD (nearestIdx masses mass) 0 - mass| ≤ 1 / 2) := by
  have hmap : masses.map (fun m => |m - mass|) ≠ [] := by simpa using hm
  have hlt : nearestIdx masses mass < masses.length := by
    have := argminQ_lt_length _ hmap
    simpa [nearestIdx] using this
  have hfst : (data.zip times).map
      (fun pt => pt.1.getD (nearestIdx masses mass) P.nan) =
      data.map (fun ps => ps.getD (nearestIdx masses mass) P.nan) := by
    have hcomp : (fun pt : List P × τ => pt.1.getD (nearestIdx masses mass) P.nan) =
        (fun ps : List P => ps.getD (nearestIdx masses mass) P.nan) ∘ Prod.fst := rfl
    rw [hcomp, ← List.map_map, List.map_fst_zip _ _ (le_of_eq hlen)]
  have hsnd : (data.zip times).map Prod.snd = times :=
    List.map_snd_zip _ _ (le_of_eq hlen.symm)
  have hni : argminQ (masses.map (fun m => |m - mass|)) = nearestIdx masses mass := rfl
  refine ⟨⟨hlt, ?_⟩, ?_, ?_, ?_, ?_⟩
  · intro k hk
    have h1 := argminQ_le (masses.map (fun m => |m - mass|)) k (by simpa using hk)
    rw [hni] at h1
    rwa [getD_map_abs masses mass _ hlt, getD_map_abs masses mass k hk] at h1
  · intro k hk
    have hk' : k < masses.length := lt_trans hk hlt
    have h1 := argminQ_first (masses.map (fun m => |m - mass|)) k hk
    rw [hni] at h1
    rwa [getD_map_abs masses mass _ hlt, getD_map_abs masses mass k hk'] at h1
  · intro h
    rw [getMassEvolution_spec, if_pos h]
  · intro h
    rw [getMassEvolution_spec, if_neg h, hfst, hsnd]
  · intro hne
    by_contra hgt
    rw [not_le] at hgt
    rw [getMassEvolution_spec, if_pos hgt] at hne
    exact hne rfl

/-- C6 witness: nearest-point extraction at a concrete repository state. -/
theorem c6_nearest_point_witness :
    getMassEvolution [1, 2] [[P.val 5, P.val 6]] [(0 : ℚ)] 1 =
      ([[P.val 5, P.val 6]].map (fun ps => ps.getD (nearestIdx [1, 2] 1) P.nan),
        [(0 : ℚ)]) :=
  (c6_nearest_point [1, 2] [[P.val 5, P.val 6]] [(0 : ℚ)] 1 (by simp)
    (by simp)).2.2.2.1 (by norm_num [nearestIdx, argminQ])

/-- C10: the selected grid index and the tolerance test of
`get_mass_evolution` depend only on the grid and the requested mass, never
on the scan: for every repository content of matching lengths either every
scan contributes exactly one sample, in repository order, or the result is
empty — the tolerance test never skips some scans while keeping others. -/
theorem c10_tolerance_scan_independent {τ : Type} (masses : List ℚ) (mass : ℚ) :
    ∀ (data : List (List P)) (times : List τ), data.length = times.length →
      (¬|masses.getD (nearestIdx masses mass) 0 - mass| > 1 / 2 ∧
        getMassEvolution masses data times mass =
          (data.map (fun ps => ps.getD (nearestIdx masses mass) P.nan), times) ∧
        (getMassEvolution masses data times mass).1.length = data.length ∧
        (getMassEvolution masses data times mass).2 = times)
      ∨ (|masses.getD (nearestIdx masses mass) 0 - mass| > 1 / 2 ∧
          getMassEvolution masses data times mass = ([], [])) := by
  intro data times hlen
  have hfst : (data.zip times).map
      (fun pt => pt.1.getD (nearestIdx masses mass) P.nan) =
      data.map (fun ps => ps.getD (nearestIdx masses mass) P.nan) := by
    have hcomp : (fun pt : List P × τ => pt.1.getD (nearestIdx masses mass) P.nan) =
        (fun ps : List P => ps.getD (nearestIdx masses mass) P.nan) ∘ Prod.fst := rfl
    rw [hcomp, ← List.map_map, List.map_fst_zip _ _ (le_of_eq hlen)]
  have hsnd : (data.zip times).map Prod.snd = times :=
    List.map_snd_zip _ _ (le_of_eq hlen.symm)
  by_cases h : |masses.getD (nearestIdx masses mass) 0 - mass| > 1 / 2
  · right
    exact ⟨h, by rw [getMassEvolution_spec, if_pos h]⟩
  · left
    have heq : getMassEvolution masses data times mass =
        (data.map (fun ps => ps.getD (nearestIdx masses mass) P.nan), times) := by
      rw [getMassEvolution_spec, if_neg h, hfst, hsnd]
    exact ⟨h, heq, by rw [heq]; simp, by rw [heq]⟩

/-- C10 witness: the all-or-nothing dichotomy at a concrete repository. -/
theorem c10_tolerance_scan_independent_witness :
    (¬|[(1 : ℚ), 2].getD (nearestIdx [1, 2] 1) 0 - 1| > 1 / 2 ∧
      getMassEvolution [1, 2] [[P.val 5, P.val 6], [P.nan, P.val 7]] [(0 : ℚ), 1] 1 =
        ([[P.val 5, P.val 6], [P.nan, P.val 7]].map
            (fun ps => ps.getD (nearestIdx [1, 2] 1) P.nan), [(0 : ℚ), 1]) ∧
      (getMassEvolution [1, 2] [[P.val 5, P.val 6], [P.nan, P.val 7]] [(0 : ℚ), 1] 1).1.length =
        [[P.val 5, P.val 6], [P.nan, P.val 7]].length ∧
      (getMassEvolution [1, 2] [[P.val 5, P.val 6], [P.nan, P.val 7]] [(0 : ℚ), 1] 1).2 =
        [(0 : ℚ), 1])
    ∨ (|[(1 : ℚ), 2].getD (nearestIdx [1, 2] 1) 0 - 1| > 1 / 2 ∧
        getMassEvolution [1, 2] [[P.val 5, P.val 6], [P.nan, P.val 7]] [(0 : ℚ), 1] 1 =
          ([], [])) :=
  c10_tolerance_scan_independent [1, 2] 1 [[P.val 5, P.val 6], [P.nan, P.val 7]]
    [(0 : ℚ), 1] (by simp)

/-! Claim C2: the missing-value sentinel and the extraction predicates. -/

/-- C2 counterexample: a scan covering only masses 10 to 11, interpolated
onto the grid with points 1 and 2, carries the sentinel everywhere, yet
nearest-point extraction at mass 1 emits a sample whose pressure is the
sentinel — the extraction predicate tests only mass deviation and does not
require a valid pressure value. -/
theorem c2_sentinel_counterexample :
    getMassEvolution [1, 2] [interpolate [10, 11] [5, 6] [1, 2]] [(0 : ℚ)] 1 =
      ([P.nan], [0])
    ∧ P.nan ∈ (getMassEvolution [1, 2] [interpolate [10, 11] [5, 6] [1, 2]]
        [(0 : ℚ)] 1).1 := by
  have h : getMassEvolution [1, 2] [interpolate [10, 11] [5, 6] [1, 2]] [(0 : ℚ)] 1 =
      ([P.nan], [0]) := by
    norm_num [getMassEvolution, nearestIdx, argminQ, interpolate, interpPoint]
  exact ⟨h, by rw [h]; exact List.mem_singleton.mpr rfl⟩

/-- C2 (amended): the sentinel produced by the interpolator propagates
silently through extraction — the nearest-point predicate tests only the
grid-mass deviation, so whenever that test passes every scan contributes
the pressure at the selected index, and a scan holding the sentinel there
contributes a sample whose pressure is the sentinel. -/
theorem c2_sentinel_propagates {τ : Type} (masses : List ℚ) (data : List (List P))
    (times : List τ) (mass : ℚ) (hlen : data.length = times.length)
    (hin : ¬|masses.getD (nearestIdx masses mass) 0 - mass| > 1 / 2) :
    (getMassEvolution masses data times mass).1 =
      data.map (fun ps => ps.getD (nearestIdx masses mass) P.nan)
    ∧ (∀ ps ∈ data, ps.getD (nearestIdx masses mass) P.nan = P.nan →
        P.nan ∈ (getMassEvolution masses data times mass).1) := by
  have hfst : (data.zip times).map
      (fun pt => pt.1.getD (nearestIdx masses mass) P.nan) =
      data.map (fun ps => ps.getD (nearestIdx masses mass) P.nan) := by
    have hcomp : (fun pt : List P × τ => pt.1.getD (nearestIdx masses mass) P.nan) =
        (fun ps : List P => ps.getD (nearestIdx masses mass) P.nan) ∘ Prod.fst := rfl
    rw [hcomp, ← List.map_map, List.map_fst_zip _ _ (le_of_eq hlen)]
  have h1 : (getMassEvolution masses data times mass).1 =
      data.map (fun ps => ps.getD (nearestIdx masses mass) P.nan) := by
    rw [getMassEvolution_spec, if_neg hin, hfst]
  refine ⟨h1, ?_⟩
  intro ps hps hnan
  rw [h1]
  exact List.mem_map.mpr ⟨ps, hps, hnan⟩

/-- C2 witness: sentinel propagation at a concrete repository state. -/
theorem c2_sentinel_propagates_witness :
    (getMassEvolution [1, 2] [[P.nan, P.val 3]] [(0 : ℚ)] 1).1 =
      [[P.nan, P.val 3]].map (fun ps => ps.getD (nearestIdx [1, 2] 1) P.nan) :=
  (c2_sentinel_propagates [1, 2] [[P.nan, P.val 3]] [(0 : ℚ)] 1 (by simp)
    (by norm_num [nearestIdx, argminQ])).1

/-! Claim C4: relative-ratio extraction. -/

theorem getRatioSeries_spec {τ : Type} (sm : List P → List P) (masses : List ℚ)
    (data : List (List P)) (times : List τ) (mass massRel w : ℚ) :
    getRatioSeries sm masses data times mass massRel w =
      (((data.zip times).filter (fun pt => ratioGuard sm masses mass massRel w pt.1)).map
          (fun pt => ratioValue sm masses mass massRel w pt.1),
        ((data.zip times).filter (fun pt => ratioGuard sm masses mass massRel w pt.1)).map
          Prod.snd) := by
  unfold getRatioSeries
  generalize data.zip times = l
  induction l with
  | nil => rfl
  | cons pt t ih =>
    rw [List.foldr_cons, ih, List.filter_cons]
    rcases h1 : getPeakfoundPressure sm masses pt.1 mass w with _ | pv <;>
      rcases h2 : getPeakfoundPressure sm masses pt.1 massRel w with _ | rv
    · have hg : ratioGuard sm masses mass massRel w pt.1 = false := by
        rw [ratioGuard, h1, h2]
      simp only [h1, h2, hg, Bool.false_eq_true, if_false]
    · have hg : ratioGuard sm masses mass massRel w pt.1 = false := by
        rw [ratioGuard, h1, h2]
      simp only [h1, h2, hg, Bool.false_eq_true, if_false]
    · have hg : ratioGuard sm masses mass massRel w pt.1 = false := by
        rw [ratioGuard, h1, h2]
      simp only [h1, h2, hg, Bool.false_eq_true, if_false]
    · by_cases hz : pNe0 rv.1 = true
      · have hg : ratioGuard sm masses mass massRel w pt.1 = true := by
          rw [ratioGuard, h1, h2]
          exact hz
        have hv : ratioValue sm masses mass massRel w pt.1 = pdiv pv.1 rv.1 := by
          rw [ratioValue, h1, h2]
        simp only [h1, h2, hz, if_true, hg, List.map_cons, hv]
      · have hg : ratioGuard sm masses mass massRel w pt.1 = false := by
          rw [ratioGuard, h1, h2]
          simpa using hz
        simp only [h1, h2, hz, hg, Bool.false_eq_true, if_false]

/-- C4: the ratio loop emits, per scan and in repository order, exactly
the scans whose two peak-window lookups are present with a relative
pressure that compares nonzero; the emitted value is the float quotient,
the emitted time the scan's timestamp; the guard holds exactly when both
results are present and the denominator compares nonzero, and every
guarded denominator differs from the zero value, so the quotient is never
formed with a zero divisor. -/
theorem c4_ratio_extraction {τ : Type} (sm : List P → List P) (masses : List ℚ)
    (data : List (List P)) (times : List τ) (mass massRel w : ℚ) :
    getRatioSeries sm masses data times mass massRel w =
      (((data.zip times).filter (fun pt => ratioGuard sm masses mass massRel w pt.1)).map
          (fun pt => ratioValue sm masses mass massRel w pt.1),
        ((data.zip times).filter (fun pt => ratioGuard sm masses mass massRel w pt.1)).map
          Prod.snd)
    ∧ (∀ ps : List P, ratioGuard sm masses mass massRel w ps = true ↔
        ∃ pv rv : P × ℚ,
          getPeakfoundPressure sm masses ps mass w = some pv ∧
          getPeakfoundPressure sm masses ps massRel w = some rv ∧
          pNe0 rv.1 = true)
    ∧ (∀ ps : List P, ∀ pv rv : P × ℚ,
        getPeakfoundPressure sm masses ps mass w = some pv →
        getPeakfoundPressure sm masses ps massRel w = some rv →
        ratioGuard sm masses mass massRel w ps = true →
        ratioValue sm masses mass massRel w ps = pdiv pv.1 rv.1 ∧ rv.1 ≠ P.val 0) := by
  refine ⟨getRatioSeries_spec sm masses data times mass massRel w, ?_, ?_⟩
  · intro ps
    constructor
    · intro hg
      rcases h1 : getPeakfoundPressure sm masses ps mass w with _ | pv <;>
        rcases h2 : getPeakfoundPressure sm masses ps massRel w with _ | rv <;>
        rw [ratioGuard, h1, h2] at hg
      · exact absurd hg (by simp)
      · exact absurd hg (by simp)
      · exact absurd hg (by simp)
      · exact ⟨pv, rv, rfl, rfl, hg⟩
    · rintro ⟨pv, rv, h1, h2, hz⟩
      rw [ratioGuard, h1, h2]
      exact hz
  · intro ps pv rv h1 h2 hg
    rw [ratioGuard, h1, h2] at hg
    have hz : pNe0 rv.1 = true := hg
    refine ⟨by rw [ratioValue, h1, h2], ?_⟩
    intro hzero
    rw [hzero] at hz
    simp [pNe0] at hz

/-- C4 witness: the guarded value at a concrete scan whose peak-window
results are both present with a nonzero denominator. -/
theorem c4_ratio_extraction_witness :
    ratioValue id [1, 2, 3] 2 2 4 [P.val 2, P.val 4, P.val 2] =
      pdiv (P.val 4, (2 : ℚ)).1 (P.val 4, (2 : ℚ)).1 ∧
      (P.val 4, (2 : ℚ)).1 ≠ P.val 0 :=
  (c4_ratio_extraction id [1, 2, 3] [[P.val 2, P.val 4, P.val 2]] [(0 : ℚ)] 2 2 4).2.2
    [P.val 2, P.val 4, P.val 2] (P.val 4, 2) (P.val 4, 2)
    (by norm_num +decide [getPeakfoundPressure, massWindow, findPeaks, localMaxima,
      lmaxAux, findAhead, selectByPeakDistance, argsortP, argsortAux, argsortInsert,
      sbpdLoop, prioLe, pLt, pEqB, pGe, argminQ, List.range_succ])
    (by norm_num +decide [getPeakfoundPressure, massWindow, findPeaks, localMaxima,
      lmaxAux, findAhead, selectByPeakDistance, argsortP, argsortAux, argsortInsert,
      sbpdLoop, prioLe, pLt, pEqB, pGe, argminQ, List.range_succ])
    (by norm_num +decide [ratioGuard, getPeakfoundPressure, massWindow, findPeaks,
      localMaxima, lmaxAux, findAhead, selectByPeakDistance, argsortP, argsortAux,
      argsortInsert, sbpdLoop, prioLe, pLt, pEqB, pGe, pNe0, argminQ, List.range_succ])

/-! Claim C3: peak-window extraction. -/

theorem getD_map_of_lt {α β : Type} (f : α → β) (l : List α) (k : ℕ) (hk : k < l.length)
    (d : α) (d' : β) : (l.map f).getD k d' = f (l.getD k d) := by
  rw [List.getD_eq_getElem?_getD, List.getElem?_map, List.getElem?_eq_getElem hk,
    List.getD_eq_getElem?_getD, List.getElem?_eq_getElem hk]
  rfl

theorem getD_eq_getElem_of_lt {α : Type} (l : List α) (k : ℕ) (d : α)
    (hk : k < l.length) : l.getD k d = l[k] := by
  rw [List.getD_eq_getElem?_getD, List.getElem?_eq_getElem hk]
  rfl

theorem getD_mem_of_lt {α : Type} (l : List α) (k : ℕ) (d : α) (hk : k < l.length) :
    l.getD k d ∈ l := by
  rw [getD_eq_getElem_of_lt l k d hk]
  exact List.getElem_mem hk

theorem getPeakfoundPressure_eq (sm : List P → List P) (masses : List ℚ)
    (pressures : List P) (mass w : ℚ) :
    getPeakfoundPressure sm masses pressures mass w =
      if massWindow masses pressures mass w = [] then none
      else if findPeaks (sm ((massWindow masses pressures mass w).map Prod.snd)) 2
          (5 / 1000000000000) = [] then
        some (((massWindow masses pressures mass w).map Prod.snd).getD
            (argminQ (((massWindow masses pressures mass w).map Prod.fst).map
              (fun m => |m - mass|))) P.nan,
          ((massWindow masses pressures mass w).map Prod.fst).getD
            (argminQ (((massWindow masses pressures mass w).map Prod.fst).map
              (fun m => |m - mass|))) 0)
      else
        some ((sm ((massWindow masses pressures mass w).map Prod.snd)).getD
            ((findPeaks (sm ((massWindow masses pressures mass w).map Prod.snd)) 2
                (5 / 1000000000000)).getD
              (argminQ ((findPeaks (sm ((massWindow masses pressures mass w).map Prod.snd)) 2
                  (5 / 1000000000000)).map
                (fun p => |((massWindow masses pressures mass w).map Prod.fst).getD p 0 -
                  mass|))) 0) P.nan,
          ((massWindow masses pressures mass w).map Prod.fst).getD
            ((findPeaks (sm ((massWindow masses pressures mass w).map Prod.snd)) 2
                (5 / 1000000000000)).getD
              (argminQ ((findPeaks (sm ((massWindow masses pressures mass w).map Prod.snd)) 2
                  (5 / 1000000000000)).map
                (fun p => |((massWindow masses pressures mass w).map Prod.fst).getD p 0 -
                  mass|))) 0) 0) := rfl

/-- C3: peak-window extraction returns no result exactly when the grid
sub-range within half a window of the target mass is empty; on a nonempty
window it always returns a result: when peak detection on the smoothed
window finds peaks it returns the smoothed pressure and grid mass of a
detected peak whose grid mass deviates least from the target among all
detected peaks, and when no peak qualifies it falls back to the raw
pressure and grid mass at an in-window index whose grid mass deviates
least from the target over the whole window. -/
theorem c3_peak_window (sm : List P → List P) (masses : List ℚ) (pressures : List P)
    (mass w : ℚ) (hlen : pressures.length = masses.length) :
    (massWindow masses pressures mass w = [] ↔
      ∀ m ∈ masses, ¬(mass - w / 2 ≤ m ∧ m ≤ mass + w / 2))
    ∧ (getPeakfoundPressure sm masses pressures mass w = none ↔
        massWindow masses pressures mass w = [])
    ∧ (massWindow masses pressures mass w ≠ [] →
        (getPeakfoundPressure sm masses pressures mass w).isSome = true)
    ∧ (∀ pks : List ℕ,
        findPeaks (sm ((massWindow masses pressures mass w).map Prod.snd)) 2
            (5 / 1000000000000) = pks →
        pks ≠ [] → massWindow masses pressures mass w ≠ [] →
        ∃ k ∈ pks,
          getPeakfoundPressure sm masses pressures mass w =
            some ((sm ((massWindow masses pressures mass w).map Prod.snd)).getD k P.nan,
              ((massWindow masses pressures mass w).map Prod.fst).getD k 0) ∧
          ∀ k2 ∈ pks,
            |((massWindow masses pressures mass w).map Prod.fst).getD k 0 - mass| ≤
              |((massWindow masses pressures mass w).map Prod.fst).getD k2 0 - mass|)
    ∧ (findPeaks (sm ((massWindow masses pressures mass w).map Prod.snd)) 2
          (5 / 1000000000000) = [] →
        massWindow masses pressures mass w ≠ [] →
        ∃ i < (massWindow masses pressures mass w).length,
          getPeakfoundPressure sm masses pressures mass w =
            some (((massWindow masses pressures mass w).map Prod.snd).getD i P.nan,
              ((massWindow masses pressures mass w).map Prod.fst).getD i 0) ∧
          ∀ i2 < (massWindow masses pressures mass w).length,
            |((massWindow masses pressures mass w).map Prod.fst).getD i 0 - mass| ≤
              |((massWindow masses pressures mass w).map Prod.fst).getD i2 0 - mass|) := by
  refine ⟨?_, ?_, ?_, ?_, ?_⟩
  · constructor
    · intro h m hm
      rcases List.mem_iff_getElem.mp hm with ⟨i, hi, rfl⟩
      have hiz : i < (masses.zip pressures).length := by
        rw [List.length_zip, hlen]
        simpa using hi
      have hip : i < pressures.length := by
        rw [hlen]
        exact hi
      have hpt : (masses[i], pressures[i]) ∈ masses.zip pressures := by
        have hz := @List.getElem_zip _ _ masses pressures i hiz
        rw [← hz]
        exact List.getElem_mem hiz
      have := List.filter_eq_nil_iff.mp h _ hpt
      simpa using this
    · intro h
      rw [massWindow, List.filter_eq_nil_iff]
      intro pt hpt
      have hmem := List.of_mem_zip hpt
      simpa using h pt.1 hmem.1
  · rw [getPeakfoundPressure_eq]
    constructor
    · intro h
      by_contra hw
      rw [if_neg hw] at h
      split_ifs at h <;> simp at h
    · intro hw
      rw [if_pos hw]
  · intro hw
    rw [getPeakfoundPressure_eq, if_neg hw]
    split_ifs <;> rfl
  · intro pks hpks hne hw
    rw [getPeakfoundPressure_eq, if_neg hw, hpks, if_neg hne]
    have hmapne : pks.map
        (fun p => |((massWindow masses pressures mass w).map Prod.fst).getD p 0 - mass|) ≠
        [] := by simpa using hne
    have hargl : argminQ (pks.map
        (fun p => |((massWindow masses pressures mass w).map Prod.fst).getD p 0 - mass|)) <
        pks.length := by
      have := argminQ_lt_length _ hmapne
      simpa using this
    refine ⟨pks.getD (argminQ (pks.map
      (fun p => |((massWindow masses pressures mass w).map Prod.fst).getD p 0 - mass|))) 0,
      getD_mem_of_lt pks _ 0 hargl, rfl, ?_⟩
    intro k2 hk2
    rcases List.mem_iff_getElem.mp hk2 with ⟨i2, hi2, rfl⟩
    have h1 := argminQ_le (pks.map
      (fun p => |((massWindow masses pressures mass w).map Prod.fst).getD p 0 - mass|))
      i2 (by simpa using hi2)
    rw [getD_map_of_lt _ pks _ hargl 0 0, getD_map_of_lt _ pks i2 hi2 0 0,
      getD_eq_getElem_of_lt pks i2 0 hi2] at h1
    exact h1
  · intro hpk hw
    rw [getPeakfoundPressure_eq, if_neg hw, if_pos hpk]
    have hfne : (massWindow masses pressures mass w).map Prod.fst ≠ [] := by
      simpa using hw
    have hmapne : ((massWindow masses pressures mass w).map Prod.fst).map
        (fun m => |m - mass|) ≠ [] := by simpa using hfne
    have hargl : argminQ (((massWindow masses pressures mass w).map Prod.fst).map
        (fun m => |m - mass|)) < (massWindow masses pressures mass w).length := by
      have := argminQ_lt_length _ hmapne
      simpa using this
    refine ⟨argminQ (((massWindow masses pressures mass w).map Prod.fst).map
      (fun m => |m - mass|)), hargl, rfl, ?_⟩
    intro i2 hi2
    have h1 := argminQ_le (((massWindow masses pressures mass w).map Prod.fst).map
      (fun m => |m - mass|)) i2 (by simpa using hi2)
    rw [getD_map_of_lt _ ((massWindow masses pressures mass w).map Prod.fst) _
        (by simpa using hargl) 0 0,
      getD_map_of_lt _ ((massWindow masses pressures mass w).map Prod.fst) i2
        (by simpa using hi2) 0 0] at h1
    exact h1

/-- C3 witness: the peak branch at a concrete scan with one clear peak,
and the empty-window case at a mass outside the grid. -/
theorem c3_peak_window_witness :
    getPeakfoundPressure id [1, 2, 3, 4, 5]
      [P.val 1, P.val 2, P.val 3, P.val 2, P.val 1] 100 4 = none :=
  (c3_peak_window id [1, 2, 3, 4, 5] [P.val 1, P.val 2, P.val 3, P.val 2, P.val 1]
    100 4 (by simp)).2.1.mpr (by norm_num [massWindow, List.filter])

/-! Claim C7: interpolation onto the grid. -/

theorem fst_head_le_getLastD (p : ℚ × ℚ) (z : List (ℚ × ℚ)) (d : ℚ × ℚ)
    (h : List.Chain' (fun a b : ℚ × ℚ => a.1 < b.1) (p :: z)) :
    p.1 ≤ ((p :: z).getLastD d).1 := by
  induction z generalizing p with
  | nil => simp [List.getLastD_cons]
  | cons q t ih =>
    rw [List.getLastD_cons]
    have hpq : p.1 < q.1 := (List.chain'_cons.mp h).1
    have h2 := ih q (List.chain'_cons.mp h).2
    rw [List.getLastD_cons] at h2 ⊢
    exact le_trans (le_of_lt hpq) h2

theorem interpPoint_below (g : ℚ) (z : List (ℚ × ℚ)) (hne : z ≠ [])
    (h : g < (z.headD (0, 0)).1) : interpPoint g z = P.nan := by
  match z with
  | [] => exact absurd rfl hne
  | [(x, y)] => rfl
  | (x0, y0) :: (x1, y1) :: rest =>
    rw [List.headD_cons] at h
    simp only [interpPoint]
    rw [if_pos h]

theorem interpPoint_above (g : ℚ) : ∀ z : List (ℚ × ℚ),
    List.Chain' (fun a b : ℚ × ℚ => a.1 < b.1) z →
    (z.getLastD (0, 0)).1 < g → interpPoint g z = P.nan := by
  intro z
  induction z with
  | nil => intro _ _; rfl
  | cons p0 t ih =>
    intro hch hlast
    cases t with
    | nil => rfl
    | cons p1 rest =>
      obtain ⟨x0, y0⟩ := p0
      obtain ⟨x1, y1⟩ := p1
      rw [List.getLastD_cons] at hlast
      have hx1last : x1 ≤ (((x1, y1) :: rest).getLastD (x0, y0)).1 :=
        fst_head_le_getLastD (x1, y1) rest (x0, y0) (List.chain'_cons.mp hch).2
      have hx1g : x1 < g := lt_of_le_of_lt hx1last hlast
      have hx0g : ¬ g < x0 :=
        not_lt.mpr (le_of_lt (lt_trans (List.chain'_cons.mp hch).1 hx1g))
      simp only [interpPoint]
      rw [if_neg hx0g, if_neg (not_le.mpr hx1g)]
      refine ih (List.chain'_cons.mp hch).2 ?_
      rw [getLastD_ne_nil ((x1, y1) :: rest) (x0, y0) (0, 0) (by simp)] at hlast
      exact hlast

theorem interpPoint_in_range (g : ℚ) : ∀ z : List (ℚ × ℚ),
    List.Chain' (fun a b : ℚ × ℚ => a.1 < b.1) z → 2 ≤ z.length →
    (z.headD (0, 0)).1 ≤ g → g ≤ (z.getLastD (0, 0)).1 →
    interpPoint g z ≠ P.nan := by
  intro z
  induction z with
  | nil => intro _ h2; simp at h2
  | cons p0 t ih =>
    intro hch h2 hhead hlast
    cases t with
    | nil => simp at h2
    | cons p1 rest =>
      obtain ⟨x0, y0⟩ := p0
      obtain ⟨x1, y1⟩ := p1
      rw [List.headD_cons] at hhead
      simp only [interpPoint]
      rw [if_neg (not_lt.mpr hhead)]
      by_cases hg1 : g ≤ x1
      · rw [if_pos hg1]
        exact fun hc => P.noConfusion hc
      · rw [if_neg hg1]
        cases rest with
        | nil =>
          exfalso
          rw [List.getLastD_cons, List.getLastD_cons] at hlast
          exact hg1 hlast
        | cons p2 rest' =>
          refine ih (List.chain'_cons.mp hch).2 (by simp) ?_ ?_
          · rw [List.headD_cons]
            exact le_of_lt (lt_of_not_le hg1)
          · rw [List.getLastD_cons] at hlast
            rw [getLastD_ne_nil ((x1, y1) :: p2 :: rest') (x0, y0) (0, 0) (by simp)] at hlast
            exact hlast

theorem interpPoint_segment (g : ℚ) : ∀ (pre : List (ℚ × ℚ)) (p0 p1 : ℚ × ℚ)
    (post : List (ℚ × ℚ)),
    List.Chain' (fun a b : ℚ × ℚ => a.1 < b.1) (pre ++ p0 :: p1 :: post) →
    p0.1 ≤ g → g ≤ p1.1 →
    interpPoint g (pre ++ p0 :: p1 :: post) =
      P.val (p0.2 + (p1.2 - p0.2) * (g - p0.1) / (p1.1 - p0.1)) := by
  intro pre
  induction pre with
  | nil =>
    intro p0 p1 post hch h0 h1
    obtain ⟨x0, y0⟩ := p0
    obtain ⟨x1, y1⟩ := p1
    simp only [List.nil_append, interpPoint]
    rw [if_neg (not_lt.mpr h0), if_pos h1]
  | cons q pre' ih =>
    intro p0 p1 post hch h0 h1
    have hpw := List.chain'_iff_pairwise.mp hch
    rw [List.cons_append, List.pairwise_cons] at hpw
    have hq0 : q.1 < p0.1 := hpw.1 p0 (by simp)
    have hqg : ¬ g < q.1 := not_lt.mpr (le_of_lt (lt_of_lt_of_le hq0 h0))
    cases pre' with
    | nil =>
      obtain ⟨qx, qy⟩ := q
      obtain ⟨x0, y0⟩ := p0
      obtain ⟨x1, y1⟩ := p1
      simp only [List.cons_append, List.nil_append, interpPoint]
      rw [if_neg hqg]
      have hch2 : List.Chain' (fun a b : ℚ × ℚ => a.1 < b.1)
          ((x0, y0) :: (x1, y1) :: post) := by
        have h3 : List.Chain' (fun a b : ℚ × ℚ => a.1 < b.1)
            ((qx, qy) :: (x0, y0) :: (x1, y1) :: post) := by simpa using hch
        exact h3.tail
      by_cases hgx0 : g ≤ x0
      · rw [if_pos hgx0]
        have hgeq : g = x0 := le_antisymm hgx0 h0
        have hqx : qx < x0 := by simpa using hq0
        have hne : x0 - qx ≠ 0 := sub_ne_zero.mpr (ne_of_gt hqx)
        rw [hgeq]
        congr 1
        rw [sub_self]
        field_simp
      · rw [if_neg hgx0]
        exact ih (x0, y0) (x1, y1) post hch2 h0 h1
    | cons r pre'' =>
      obtain ⟨qx, qy⟩ := q
      obtain ⟨rx, ry⟩ := r
      have hr0 : rx < p0.1 := by
        have hpw2 := hpw.2
        rw [List.cons_append, List.pairwise_cons] at hpw2
        exact hpw2.1 p0 (by simp)
      have hrg : ¬ g ≤ rx := not_le.mpr (lt_of_lt_of_le hr0 h0)
      have hch2 : List.Chain' (fun a b : ℚ × ℚ => a.1 < b.1)
          ((rx, ry) :: (pre'' ++ p0 :: p1 :: post)) := by
        have h3 : List.Chain' (fun a b : ℚ × ℚ => a.1 < b.1)
            ((qx, qy) :: (rx, ry) :: (pre'' ++ p0 :: p1 :: post)) := by simpa using hch
        exact h3.tail
      simp only [List.cons_append, interpPoint]
      rw [if_neg hqg, if_neg hrg]
      exact ih p0 p1 post hch2 h0 h1

/-- C7: for a raw scan with strictly increasing masses, interpolation onto
the grid produces one entry per grid point; each entry evaluates the
interpolant at that grid point; grid points strictly below the least raw
mass or strictly above the greatest receive the missing-value sentinel;
grid points inside the raw range never receive the sentinel; and between
two consecutive raw points the value is the straight line through them. -/
theorem c7_interpolation (xs ys grid : List ℚ)
    (hlen : ys.length = xs.length) (hmono : List.Chain' (· < ·) xs)
    (hxs2 : 2 ≤ xs.length) :
    (interpolate xs ys grid).length = grid.length
    ∧ (∀ i < grid.length, (interpolate xs ys grid).getD i P.nan =
        interpPoint (grid.getD i 0) (xs.zip ys))
    ∧ (∀ g : ℚ, g < xs.headD 0 → interpPoint g (xs.zip ys) = P.nan)
    ∧ (∀ g : ℚ, xs.getLastD 0 < g → interpPoint g (xs.zip ys) = P.nan)
    ∧ (∀ g : ℚ, xs.headD 0 ≤ g → g ≤ xs.getLastD 0 →
        interpPoint g (xs.zip ys) ≠ P.nan)
    ∧ (∀ (g : ℚ) (pre post : List (ℚ × ℚ)) (p0 p1 : ℚ × ℚ),
        xs.zip ys = pre ++ p0 :: p1 :: post → p0.1 ≤ g → g ≤ p1.1 →
        interpPoint g (xs.zip ys) =
          P.val (p0.2 + (p1.2 - p0.2) * (g - p0.1) / (p1.1 - p0.1))) := by
  have hfst : (xs.zip ys).map Prod.fst = xs :=
    List.map_fst_zip xs ys (le_of_eq hlen.symm)
  have hchz : List.Chain' (fun a b : ℚ × ℚ => a.1 < b.1) (xs.zip ys) :=
    (List.chain'_map Prod.fst).mp (by rw [hfst]; exact hmono)
  have hlast : xs.getLastD 0 = ((xs.zip ys).getLastD (0, 0)).1 := by
    have h := getLastD_map Prod.fst (xs.zip ys) ((0 : ℚ), (0 : ℚ))
    rw [hfst] at h
    simpa using h
  have hhead : xs.headD 0 = ((xs.zip ys).headD (0, 0)).1 := by
    cases xs with
    | nil => simp at hxs2
    | cons x0 xs' =>
      cases ys with
      | nil => simp at hlen
      | cons y0 ys' => rfl
  have hzne2 : 2 ≤ (xs.zip ys).length := by
    rw [List.length_zip, hlen]
    simpa using hxs2
  refine ⟨?_, ?_, ?_, ?_, ?_, ?_⟩
  · rw [interpolate, List.length_map]
  · intro i hi
    rw [interpolate, getD_map_of_lt _ grid i hi 0 P.nan]
  · intro g hg
    refine interpPoint_below g (xs.zip ys) ?_ ?_
    · intro hznil
      rw [hznil] at hzne2
      simp at hzne2
    · rw [← hhead]
      exact hg
  · intro g hg
    refine interpPoint_above g (xs.zip ys) hchz ?_
    rw [← hlast]
    exact hg
  · intro g h1 h2
    refine interpPoint_in_range g (xs.zip ys) hchz hzne2 ?_ ?_
    · rw [← hhead]
      exact h1
    · rw [← hlast]
      exact h2
  · intro g pre post p0 p1 hsplit h0 h1
    rw [hsplit]
    rw [hsplit] at hchz
    exact interpPoint_segment g pre p0 p1 post hchz h0 h1

/-- C7 witness: the interpolant between the two knots of a concrete raw
scan evaluates to the straight line through them. -/
theorem c7_interpolation_witness :
    interpPoint (3 / 2) ([1, 2].zip [10, 20]) =
      P.val (((1 : ℚ), (10 : ℚ)).2 + (((2 : ℚ), (20 : ℚ)).2 - ((1 : ℚ), (10 : ℚ)).2) *
        (3 / 2 - ((1 : ℚ), (10 : ℚ)).1) / (((2 : ℚ), (20 : ℚ)).1 - ((1 : ℚ), (10 : ℚ)).1)) :=
  (c7_interpolation [1, 2] [10, 20] [0, 3 / 2, 3] (by simp)
    (by norm_num [List.chain'_cons]) (by simp)).2.2.2.2.2 (3 / 2) [] []
    (1, 10) (2, 20) rfl (by norm_num) (by norm_num)

/-! Claim C9: the repository is sorted by timestamp, stably. -/

theorem filter_time_orderedInsert (a : Scan) (t : DT) : ∀ l : List Scan,
    (List.orderedInsert scanLe a l).filter (fun s => decide (s.time = t)) =
      if a.time = t then a :: l.filter (fun s => decide (s.time = t))
      else l.filter (fun s => decide (s.time = t)) := by
  intro l
  induction l with
  | nil =>
    by_cases hat : a.time = t
    · simp [List.orderedInsert, List.filter, hat]
    · simp [List.orderedInsert, List.filter, hat]
  | cons b l ih =>
    by_cases hab : scanLe a b
    · rw [List.orderedInsert, if_pos hab, List.filter_cons, List.filter_cons]
      by_cases hat : a.time = t <;> by_cases hbt : b.time = t <;>
        simp [hat, hbt, List.filter_cons]
    · rw [List.orderedInsert, if_neg hab, List.filter_cons, ih]
      by_cases hat : a.time = t
      · have hbt : ¬ b.time = t := by
          intro hbt
          apply hab
          show dtLe a.time b.time = true
          rw [hat, hbt]
          exact dtLe_refl t
        simp [hat, hbt, List.filter_cons]
      · simp [hat, List.filter_cons]

theorem filter_time_sortScans (t : DT) : ∀ l : List Scan,
    (sortScans l).filter (fun s => decide (s.time = t)) =
      l.filter (fun s => decide (s.time = t)) := by
  intro l
  induction l with
  | nil => rfl
  | cons a l ih =>
    have ih' : (List.insertionSort scanLe l).filter (fun s => decide (s.time = t)) =
        l.filter (fun s => decide (s.time = t)) := ih
    rw [sortScans, List.insertionSort,
      filter_time_orderedInsert a t (List.insertionSort scanLe l), List.filter_cons, ih']
    by_cases hat : a.time = t <;> simp [hat]

/-- C9: a successfully loaded repository is sorted non-decreasing by
timestamp whatever the discovery order of the files; the sorted sequence
is a permutation of the scans in discovery order, and scans with equal
timestamps keep their discovery order (the sort is stable). -/
theorem c9_repository_sorted (grid : List ℚ) (files : List ScanFile)
    (out : List Scan) (hok : loadData grid files = Except.ok out) :
    List.Sorted scanLe out
    ∧ ∃ l : List Scan,
        ingestList grid (files.filter (fun f => isDatName f.name)) = Except.ok l ∧
        out = sortScans l ∧
        out.Perm l ∧
        ∀ t : DT, out.filter (fun s => decide (s.time = t)) =
          l.filter (fun s => decide (s.time = t)) := by
  unfold loadData at hok
  cases hing : ingestList grid (files.filter (fun f => isDatName f.name)) with
  | error e =>
    rw [hing] at hok
    exact absurd hok (by simp [Except.map])
  | ok l =>
    rw [hing] at hok
    have hout : out = sortScans l := by
      simp only [Except.map] at hok
      exact (Except.ok.injEq _ _).mp hok.symm ▸ rfl
    subst hout
    exact ⟨List.sorted_insertionSort scanLe l, l, rfl, rfl,
      List.perm_insertionSort scanLe l, fun t => filter_time_sortScans t l⟩

/-- C9 witness: loading two well-formed files discovered in reverse
timestamp order produces the timestamp-sorted repository. -/
theorem c9_repository_sorted_witness :
    List.Sorted scanLe
      [⟨⟨2024, 9, 11, 17, 0, 0⟩, [P.val 5, P.val 6], Label.control⟩,
       ⟨⟨2024, 9, 12, 0, 0, 0⟩, [P.val 7, P.val 8], Label.control⟩] :=
  (c9_repository_sorted [1, 2] [sampleLate, sampleEarly]
    [⟨⟨2024, 9, 11, 17, 0, 0⟩, [P.val 5, P.val 6], Label.control⟩,
     ⟨⟨2024, 9, 12, 0, 0, 0⟩, [P.val 7, P.val 8], Label.control⟩]
    (by
      have hc1 : '1'.toNat = 49 := rfl
      have hc2 : '2'.toNat = 50 := rfl
      have hc5 : '5'.toNat = 53 := rfl
      have hc6 : '6'.toNat = 54 := rfl
      have hc7 : '7'.toNat = 55 := rfl
      have hc8 : '8'.toNat = 56 := rfl
      norm_num +decide [hc1, hc2, hc5, hc6, hc7, hc8, sampleEarly, sampleLate, loadData,
        ingestList, parseScanFile, parseDT, parseTable, parseRat, parseMantissa,
        digitsToNat, digitsToNatAux, digitVal, readSign, splitOnChar, timePart, isDatName,
        interpolate, interpPoint, assignRunLabel, controlRun, xenonRun, dtLe, lexLe,
        DT.toList, dig2, daysInMonth, isLeap, sortScans, List.insertionSort,
        List.orderedInsert, scanLe, Except.map, List.intercalate, List.mapM.loop,
        Option.bind, Except.bind, Except.pure, bind, pure])).1

/-! Claim C1: a malformed file aborts ingestion. -/

/-- C1 counterexample: a directory whose first discovered file has an
unparseable filename makes `load_data` fail outright, even though the
second file is well formed: the valid file is never ingested, so a
malformed file does abort the ingestion of the rest. -/
theorem c1_skip_counterexample :
    loadData [1, 2] [sampleBadName, sampleEarly] =
      Except.error IngestError.filenameFormat
    ∧ (∃ s : Scan, parseScanFile [1, 2] sampleEarly = Except.ok s) := by
  constructor
  · decide
  · refine ⟨⟨⟨2024, 9, 11, 17, 0, 0⟩, [P.val 5, P.val 6], Label.control⟩, ?_⟩
    have hc1 : '1'.toNat = 49 := rfl
    have hc2 : '2'.toNat = 50 := rfl
    have hc5 : '5'.toNat = 53 := rfl
    have hc6 : '6'.toNat = 54 := rfl
    norm_num +decide [hc1, hc2, hc5, hc6, sampleEarly, parseScanFile, parseDT, parseTable,
      parseRat, parseMantissa, digitsToNat, digitsToNatAux, digitVal, readSign, splitOnChar,
      timePart, interpolate, interpPoint, assignRunLabel, controlRun, xenonRun, dtLe, lexLe,
      DT.toList, dig2, daysInMonth, isLeap, List.intercalate, List.mapM.loop, Option.bind,
      Except.bind, Except.pure, bind, pure]

/-- C1 (amended): parsing errors are not local to the file — when any
discovered `.dat` file fails filename or content parsing, `load_data`
raises that error and ingestion of the whole directory fails, producing no
repository; remaining files are not ingested. -/
theorem c1_error_aborts_ingestion (grid : List ℚ) (files : List ScanFile)
    (hbad : ∃ f ∈ files.filter (fun f => isDatName f.name),
      ∃ e, parseScanFile grid f = Except.error e) :
    ∃ e, loadData grid files = Except.error e := by
  have haux : ∀ l : List ScanFile,
      (∃ f ∈ l, ∃ e, parseScanFile grid f = Except.error e) →
      ∃ e, ingestList grid l = Except.error e := by
    intro l
    induction l with
    | nil =>
      rintro ⟨f, hf, _⟩
      simp at hf
    | cons f0 rest ih =>
      rintro ⟨f, hf, e, he⟩
      rcases List.mem_cons.mp hf with rfl | hfr
      · exact ⟨e, by simp [ingestList, he, Except.bind, bind, Functor.map, Except.map]⟩
      · cases hp : parseScanFile grid f0 with
        | error e0 => exact ⟨e0, by simp [ingestList, hp, Except.bind, bind, Functor.map, Except.map]⟩
        | ok s0 =>
          rcases ih ⟨f, hfr, e, he⟩ with ⟨e1, he1⟩
          exact ⟨e1, by simp [ingestList, hp, he1, Except.bind, bind, Functor.map, Except.map]⟩
  rcases haux _ hbad with ⟨e, he⟩
  refine ⟨e, ?_⟩
  rw [loadData, he]
  rfl

/-- C1 witness: the abort theorem applied to the concrete directory with
one malformed and one well-formed file. -/
theorem c1_error_aborts_ingestion_witness :
    ∃ e, loadData [1, 2] [sampleBadName, sampleEarly] = Except.error e :=
  c1_error_aborts_ingestion [1, 2] [sampleBadName, sampleEarly]
    ⟨sampleBadName, by decide, IngestError.filenameFormat, by decide⟩
